import Mathlib

/-!
Verification of the batch analysis pipeline of `src/app.py`.

The file shallowly embeds the pipeline's pure core: configuration constants
(`AppConfig`), the layered JSON response parser (`parse_json_response` and its
four strategies, including an executable model of Python's `json.loads` and of
the two concrete regular expressions used by strategies 2 and 3), the retrying
AI-call wrapper (`generate_ai_report`), the batch loop of `main`
(`chunks` / `process_batches`), and the read-only HTML renderer
(`create_photo_row_html`). External effects (the Vertex AI call, Streamlit UI
calls, sleeps) are represented by explicit parameters or by recorded trace
fields, as documented at each definition.
-/

/- Configuration constants from `AppConfig` (src/app.py:70-88).
Only the fields the pipeline claims mention are modelled. -/
namespace AppConfig

/-- `BATCH_SIZE = 10` -/
def BATCH_SIZE : Nat := 10

/-- `AI_TIMEOUT_SECONDS = 60` -/
def AI_TIMEOUT_SECONDS : Nat := 60

/-- `MAX_RETRIES = 3` -/
def MAX_RETRIES : Nat := 3

/-- `RETRY_DELAY_SECONDS = 2` -/
def RETRY_DELAY_SECONDS : Nat := 2

end AppConfig

/-- The values `json.loads` can produce.  Numbers keep their source lexeme
(`"1"`, `"-2.5e3"`, `"NaN"`, `"Infinity"`, ...) since no claim depends on
numeric magnitude; objects keep their members in source order (Python's dict
would keep the last duplicate key, a difference no claim touches). -/
inductive JsonValue where
  | null
  | bool (b : Bool)
  | num (lexeme : String)
  | str (s : String)
  | arr (elems : List JsonValue)
  | obj (members : List (String × JsonValue))

/-- JSON whitespace, as skipped by Python's `json` scanner (`[ \t\n\r]`). -/
def isJsonWs (c : Char) : Bool :=
  c == ' ' || c == '\t' || c == '\n' || c == '\r'

/-- Skip JSON whitespace. -/
def skipWs (cs : List Char) : List Char := cs.dropWhile isJsonWs

/-- Match a literal character sequence, returning the remainder. -/
def litMatch : List Char → List Char → Option (List Char)
  | [], cs => some cs
  | l :: ls, c :: cs => if c = l then litMatch ls cs else none
  | _ :: _, [] => none

/-- Value of one hexadecimal digit. -/
def hexVal (c : Char) : Option Nat :=
  if '0' ≤ c ∧ c ≤ '9' then some (c.toNat - 48)
  else if 'a' ≤ c ∧ c ≤ 'f' then some (c.toNat - 87)
  else if 'A' ≤ c ∧ c ≤ 'F' then some (c.toNat - 55)
  else none

/-- Single-character JSON string escapes. -/
def escChar (c : Char) : Option Char :=
  if c = '"' then some '"'
  else if c = '\\' then some '\\'
  else if c = '/' then some '/'
  else if c = 'b' then some (Char.ofNat 8)
  else if c = 'f' then some (Char.ofNat 12)
  else if c = 'n' then some (Char.ofNat 10)
  else if c = 'r' then some (Char.ofNat 13)
  else if c = 't' then some (Char.ofNat 9)
  else none

/-- Body of a JSON string after the opening quote: returns the decoded
characters and the remainder after the closing quote.  Unescaped control
characters are rejected (strict mode); `\uXXXX` surrogate pairs are combined.
(Python would keep a lone surrogate as-is; Lean's `Char` cannot represent it,
so a lone surrogate is rejected here — no claim touches that corner.) -/
def strBody : List Char → Option (List Char × List Char)
  | [] => none
  | c :: rest =>
    if c = '"' then some ([], rest)
    else if c = '\\' then
      match rest with
      | 'u' :: h1 :: h2 :: h3 :: h4 :: rest3 =>
        match hexVal h1, hexVal h2, hexVal h3, hexVal h4 with
        | some a, some b, some c2, some d =>
          let n1 := ((a * 16 + b) * 16 + c2) * 16 + d
          if 0xD800 ≤ n1 ∧ n1 ≤ 0xDBFF then
            match rest3 with
            | '\\' :: 'u' :: g1 :: g2 :: g3 :: g4 :: rest4 =>
              match hexVal g1, hexVal g2, hexVal g3, hexVal g4 with
              | some a2, some b2, some c3, some d2 =>
                let n2 := ((a2 * 16 + b2) * 16 + c3) * 16 + d2
                if 0xDC00 ≤ n2 ∧ n2 ≤ 0xDFFF then
                  (strBody rest4).map (fun p =>
                    (Char.ofNat (0x10000 + (n1 - 0xD800) * 0x400 + (n2 - 0xDC00)) :: p.1, p.2))
                else none
              | _, _, _, _ => none
            | _ => none
          else if 0xDC00 ≤ n1 ∧ n1 ≤ 0xDFFF then none
          else (strBody rest3).map (fun p => (Char.ofNat n1 :: p.1, p.2))
        | _, _, _, _ => none
      | e :: rest2 =>
        match escChar e with
        | some ch => (strBody rest2).map (fun p => (ch :: p.1, p.2))
        | none => none
      | [] => none
    else if c.toNat < 0x20 then none
    else (strBody rest).map (fun p => (c :: p.1, p.2))

/-- Optional exponent part of a number (`[eE][+-]?digits`); returns the
exponent lexeme and the remainder (or nothing consumed, like Python's
`NUMBER_RE` leaving an incomplete exponent unmatched). -/
def parseExp (cs : List Char) : List Char × List Char :=
  match cs with
  | e :: rest =>
    if e = 'e' ∨ e = 'E' then
      let (sgn, rest1) :=
        match rest with
        | s :: r => if s = '+' ∨ s = '-' then ([s], r) else (([] : List Char), rest)
        | [] => ([], rest)
      match rest1 with
      | d :: _ =>
        if d.isDigit then (e :: (sgn ++ rest1.takeWhile Char.isDigit), rest1.dropWhile Char.isDigit)
        else ([], cs)
      | [] => ([], cs)
    else ([], cs)
  | [] => ([], cs)

/-- JSON number (Python `NUMBER_RE` plus the `Infinity` / `-Infinity`
constants Python's decoder accepts).  A leading zero is not followed by more
integer digits, as in `(?:0|[1-9]\d*)`. -/
def parseNumber (cs : List Char) : Option (JsonValue × List Char) :=
  let (sign, cs1) :=
    match cs with
    | '-' :: r => ((['-'] : List Char), r)
    | _ => ([], cs)
  match cs1 with
  | [] => none
  | c :: _ =>
    if c = 'I' then
      match litMatch ['I','n','f','i','n','i','t','y'] cs1 with
      | some rest => some (.num (String.mk (sign ++ ['I','n','f','i','n','i','t','y'])), rest)
      | none => none
    else if c.isDigit then
      let intPart := if c = '0' then ['0'] else cs1.takeWhile Char.isDigit
      let rest1 := if c = '0' then cs1.drop 1 else cs1.dropWhile Char.isDigit
      let (frac, rest2) :=
        match rest1 with
        | '.' :: d :: _ =>
          if d.isDigit then
            ('.' :: (rest1.drop 1).takeWhile Char.isDigit, (rest1.drop 1).dropWhile Char.isDigit)
          else (([] : List Char), rest1)
        | _ => ([], rest1)
      let (ex, rest3) := parseExp rest2
      some (.num (String.mk (sign ++ intPart ++ frac ++ ex)), rest3)
    else none

mutual

/-- One JSON value, fuel-indexed (the fuel only bounds nesting; `jsonLoads`
always supplies enough).  Mirrors Python's `_scan_once` dispatch on the first
non-whitespace character. -/
def parseValue : Nat → List Char → Option (JsonValue × List Char)
  | 0, _ => none
  | fuel + 1, cs =>
    match skipWs cs with
    | [] => none
    | c :: rest =>
      if c = 'n' then (litMatch ['u','l','l'] rest).map (fun r => (.null, r))
      else if c = 't' then (litMatch ['r','u','e'] rest).map (fun r => (.bool true, r))
      else if c = 'f' then (litMatch ['a','l','s','e'] rest).map (fun r => (.bool false, r))
      else if c = 'N' then (litMatch ['a','N'] rest).map (fun r => (.num "NaN", r))
      else if c = '"' then (strBody rest).map (fun p => (.str (String.mk p.1), p.2))
      else if c = '[' then
        match skipWs rest with
        | ']' :: r2 => some (.arr [], r2)
        | cs2 =>
          match parseValue fuel cs2 with
          | some (v, r2) => (arrayElems fuel r2).map (fun p => (.arr (v :: p.1), p.2))
          | none => none
      else if c = '{' then
        match skipWs rest with
        | '}' :: r2 => some (.obj [], r2)
        | '"' :: r2 =>
          match strBody r2 with
          | some (key, r3) =>
            match skipWs r3 with
            | ':' :: r4 =>
              match parseValue fuel r4 with
              | some (v, r5) =>
                (objMembers fuel r5).map (fun p => (.obj ((String.mk key, v) :: p.1), p.2))
              | none => none
            | _ => none
          | none => none
        | _ => none
      else if c = '-' ∨ c.isDigit then parseNumber (c :: rest)
      else if c = 'I' then (litMatch ['n','f','i','n','i','t','y'] rest).map (fun r => (.num "Infinity", r))
      else none

/-- Remaining array elements after the first: `(',' value)* ']'`. -/
def arrayElems : Nat → List Char → Option (List JsonValue × List Char)
  | 0, _ => none
  | fuel + 1, cs =>
    match skipWs cs with
    | ']' :: r => some ([], r)
    | ',' :: r =>
      match parseValue fuel r with
      | some (v, r2) => (arrayElems fuel r2).map (fun p => (v :: p.1, p.2))
      | none => none
    | _ => none

/-- Remaining object members after the first: `(',' string ':' value)* '}'`. -/
def objMembers : Nat → List Char → Option (List (String × JsonValue) × List Char)
  | 0, _ => none
  | fuel + 1, cs =>
    match skipWs cs with
    | '}' :: r => some ([], r)
    | ',' :: r =>
      match skipWs r with
      | '"' :: r2 =>
        match strBody r2 with
        | some (key, r3) =>
          match skipWs r3 with
          | ':' :: r4 =>
            match parseValue fuel r4 with
            | some (v, r5) =>
              (objMembers fuel r5).map (fun p => ((String.mk key, v) :: p.1, p.2))
            | none => none
          | _ => none
        | none => none
      | _ => none
    | _ => none

end

/-- `json.loads`: parse one value and require only whitespace after it. -/
def jsonLoads (s : String) : Option JsonValue :=
  match parseValue (2 * s.length + 8) s.data with
  | some (v, rest) => if skipWs rest = [] then some v else none
  | none => none

/-- Whitespace for Python's `re` module `\s` class and `str.strip`
(`[ \t\n\r\x0b\x0c]`; exotic Unicode space characters are elided — no claim
involves them). -/
def isPyWs (c : Char) : Bool :=
  c == ' ' || c == '\t' || c == '\n' || c == '\r' || c == Char.ofNat 11 || c == Char.ofNat 12

/-- The backtick character. -/
def backtick : Char := Char.ofNat 96

/-- Three backticks, the code-fence delimiter. -/
def tripleBacktick : List Char := [backtick, backtick, backtick]

/-- Lazy capture of `(.*?)\s*` + three backticks under `re.DOTALL`: shortest
prefix such that the remainder is whitespace followed by a closing fence.
Returns the captured characters. -/
def lazyClose (cs : List Char) : Option (List Char) :=
  if (cs.dropWhile isPyWs).take 3 = tripleBacktick then some []
  else
    match cs with
    | [] => none
    | c :: rest => (lazyClose rest).map (fun l => c :: l)

/-- After the opening fence and optional `json` tag: greedy leading whitespace,
then the lazy capture. -/
def fenceTail (cs : List Char) : Option (List Char) :=
  lazyClose (cs.dropWhile isPyWs)

/-- Content directly after an opening fence: the regex piece
`(?:json)?\s*(.*?)\s*` + closing fence; the optional `json` tag is taken
greedily and dropped (backtracked) when no closing fence follows it. -/
def fenceAfterOpen (rest : List Char) : Option (List Char) :=
  match (if rest.take 4 = ['j','s','o','n'] then fenceTail (rest.drop 4) else none) with
  | some cap => some cap
  | none => fenceTail rest

/-- `re.search` for the strategy-2 fence pattern (src/app.py:1478): the match
must start at a triple backtick; start positions are tried left to right. -/
def fenceSearch : List Char → Option (List Char)
  | [] => none
  | c :: cs =>
    if c = backtick ∧ cs.take 2 = [backtick, backtick] then
      match fenceAfterOpen (cs.drop 2) with
      | some cap => some cap
      | none => fenceSearch cs
    else fenceSearch cs

/-- Greedy `.*` + `}` + `\s*` + `]` under `re.DOTALL`: picks the rightmost
closing brace that is followed (up to whitespace) by a closing bracket, and
returns the span up to and including that bracket. -/
def greedyCloseSpan : List Char → Option (List Char)
  | [] => none
  | c :: rest =>
    match greedyCloseSpan rest with
    | some span => some (c :: span)
    | none =>
      if c = '}' ∧ (rest.dropWhile isPyWs).take 1 = [']'] then
        some (c :: (rest.takeWhile isPyWs ++ [']']))
      else none

/-- After an opening `[`: the regex piece `\s*\{` then the greedy closing span. -/
def spanFrom (cs : List Char) : Option (List Char) :=
  match cs.dropWhile isPyWs with
  | c :: r2 =>
    if c = '{' then (greedyCloseSpan r2).map (fun span => cs.takeWhile isPyWs ++ '{' :: span)
    else none
  | [] => none

/-- `re.search` for the strategy-3 pattern `\[\s*\{.*\}\s*\]` (src/app.py:1486):
start positions (necessarily `[`) tried left to right, returning the matched
substring. -/
def arraySpanSearch : List Char → Option (List Char)
  | [] => none
  | c :: cs =>
    if c = '[' then
      match spanFrom cs with
      | some span => some ('[' :: span)
      | none => arraySpanSearch cs
    else arraySpanSearch cs

/-- Python `str.strip()`. -/
def pyStrip (s : String) : String :=
  String.mk (((s.data.dropWhile isPyWs).reverse.dropWhile isPyWs).reverse)

/-- Characters removed by `re.sub(r'[\x00-\x1f\x7f-\x9f]', '', ...)`. -/
def isCtl (c : Char) : Bool :=
  c.toNat ≤ 0x1f || (0x7f ≤ c.toNat && c.toNat ≤ 0x9f)

/-- Escape characters accepted by the lookahead `(?!["\\/bfnrt])`. -/
def isValidEsc (c : Char) : Bool :=
  c == '"' || c == '\\' || c == '/' || c == 'b' || c == 'f' || c == 'n' || c == 'r' || c == 't'

/-- `re.sub(r'\\(?!["\\/bfnrt])', r'\\\\', ...)`: double every backslash not
followed by a valid escape character (a backslash that is itself a valid
escape character is re-examined at the next scan position, as `re.sub` does). -/
def fixBs : List Char → List Char
  | [] => []
  | c :: rest =>
    if c = '\\' then
      match rest with
      | [] => ['\\', '\\']
      | e :: _ => if isValidEsc e then c :: fixBs rest else '\\' :: '\\' :: fixBs rest
    else c :: fixBs rest

/-- Strategy 4's text cleaning (src/app.py:1494-1496). -/
def sanitize (text : String) : String :=
  String.mk (fixBs (removeCtlAux (pyStrip text).data))
where
  removeCtlAux (cs : List Char) : List Char := cs.filter (fun c => !(isCtl c))

/-- Strategy 1 (src/app.py:1472-1475): parse the whole text as JSON. -/
def strategy1 (text : String) : Option JsonValue := jsonLoads text

/-- Strategy 2 (src/app.py:1477-1483): extract the first fenced block and
parse its interior. -/
def strategy2 (text : String) : Option JsonValue :=
  (fenceSearch text.data).bind (fun cap => jsonLoads (String.mk cap))

/-- Strategy 3 (src/app.py:1485-1491): extract the first bracketed
array-of-objects span and parse it. -/
def strategy3 (text : String) : Option JsonValue :=
  (arraySpanSearch text.data).bind (fun span => jsonLoads (String.mk span))

/-- Strategy 4 (src/app.py:1493-1499): sanitize, then parse again. -/
def strategy4 (text : String) : Option JsonValue :=
  jsonLoads (sanitize text)

/-- `AIProcessor.parse_json_response` (src/app.py:1457-1510): empty text is
rejected immediately; otherwise the four strategies are tried in order and the
first fully-decoded result is returned; `None` when all fail. -/
def parse_json_response (text : String) : Option JsonValue :=
  if text = "" then none
  else
    match strategy1 text with
    | some v => some v
    | none =>
      match strategy2 text with
      | some v => some v
      | none =>
        match strategy3 text with
        | some v => some v
        | none => strategy4 text

/-- The decode strategies of `parse_json_response`, indexed in source order. -/
def strategyAt : Nat → String → Option JsonValue
  | 0 => strategy1
  | 1 => strategy2
  | 2 => strategy3
  | 3 => strategy4
  | _ => fun _ => none

/-- The raw text shown by `st.code(text, ...)` in the error expander when
every strategy has failed (src/app.py:1505-1508); `none` when parsing
succeeded or the text was empty (the empty-text early return displays
nothing). -/
def parse_error_display (text : String) : Option String :=
  if text = "" then none
  else
    match parse_json_response text with
    | some _ => none
    | none => some text

/-- Characters able to begin a JSON document for `jsonLoads` (whitespace, the
literal heads `n t f N I`, a string, array or object opener, or a number). -/
def jsonStarter (c : Char) : Bool :=
  isJsonWs c || c == 'n' || c == 't' || c == 'f' || c == 'N' || c == 'I' ||
    c == '"' || c == '[' || c == '\x7b' || c == '-' || c.isDigit

/-- The batch split performed by `main`'s loop
`for batch_idx in range(0, len(uploaded_files), AppConfig.BATCH_SIZE)` with
`file_batch = uploaded_files[batch_idx:batch_idx + AppConfig.BATCH_SIZE]`
(src/app.py:2431,2440), parameterised by the batch size.  For `B ≥ 1` the
head equation is `take B` / `drop B` written as `x :: take (B-1)` /
`drop (B-1)` so that the recursion is structurally decreasing; `B = 0`
(where Python's `range` would raise) is outside every claim. -/
def chunks (B : Nat) : List α → List (List α)
  | [] => []
  | x :: xs => (x :: xs.take (B - 1)) :: chunks B (xs.drop (B - 1))
termination_by l => l.length
decreasing_by
  simp only [List.length_drop, List.length_cons]
  omega

/-- One iteration of the batch loop body (src/app.py:2451-2465): `outcome`
abstracts `generate_ai_report` followed by `parse_json_response` for one
batch (`none` covers both a `None` AI response and a `None` parse result);
Python's truthiness test `if batch_report_data:` makes an empty decoded list
count as an error as well.  The accumulator is
(`final_report_data`, `error_count`). -/
def process_batch_step (outcome : List α → Option (List β))
    (acc : List β × Nat) (batch : List α) : List β × Nat :=
  match outcome batch with
  | some [] => (acc.1, acc.2 + 1)
  | some (d :: ds) => (acc.1 ++ d :: ds, acc.2)
  | none => (acc.1, acc.2 + 1)

/-- The whole batch loop of `main` (src/app.py:2429-2465): fold the loop body
over the batches in order, starting from `final_report_data = []`,
`error_count = 0`. -/
def process_batches (outcome : List α → Option (List β))
    (batches : List (List α)) : List β × Nat :=
  batches.foldl (process_batch_step outcome) ([], 0)

/-- Whether a batch is recorded as failed by the loop body: no AI response,
no parse result, or a decoded-but-empty (falsy) list. -/
def batch_failed (r : Option (List β)) : Bool :=
  match r with
  | none => true
  | some [] => true
  | some (_ :: _) => false

/-- The per-batch data actually appended to `final_report_data`. -/
def batch_data (r : Option (List β)) : List β :=
  match r with
  | none => []
  | some l => l

/-- Execution trace of `AIProcessor.generate_ai_report`
(src/app.py:1386-1455): `call n` abstracts one whole attempt (image
conversion, the `model.generate_content` call and the response checks) at
`retry_count = n`; `Except.error e` is a raised exception with message `e`.
The trace records the returned value (`None` on final failure), how many
attempts ran, every `time.sleep(RETRY_DELAY_SECONDS * (retry_count + 1))`
duration, and the message of the `st.error` display on final failure. -/
structure AIReportTrace where
  result : Option String
  attempts : Nat
  delays : List Nat
  displayed_error : Option String

/-- Recursion of `generate_ai_report` on the remaining retry budget
`gas = MAX_RETRIES - 1 - retry_count`; the Python guard
`retry_count < AppConfig.MAX_RETRIES - 1` is `gas > 0`. -/
def generate_ai_report_go (call : Nat → Except String String) :
    Nat → Nat → AIReportTrace
  | gas, retry_count =>
    match call retry_count with
    | .ok s => { result := some s, attempts := 1, delays := [], displayed_error := none }
    | .error e =>
      match gas with
      | 0 => { result := none, attempts := 1, delays := [], displayed_error := some e }
      | g + 1 =>
        let t := generate_ai_report_go call g (retry_count + 1)
        { result := t.result
          attempts := t.attempts + 1
          delays := AppConfig.RETRY_DELAY_SECONDS * (retry_count + 1) :: t.delays
          displayed_error := t.displayed_error }

/-- `AIProcessor.generate_ai_report` with its default `retry_count = 0` entry
point; see `generate_ai_report_go`. -/
def generate_ai_report (call : Nat → Except String String) (retry_count : Nat) :
    AIReportTrace :=
  generate_ai_report_go call (AppConfig.MAX_RETRIES - 1 - retry_count) retry_count

/-- The keyword arguments passed to `model.generate_content`
(src/app.py:1427-1435): positional contents plus `generation_config` only. -/
def generate_content_kwargs : List String := ["generation_config"]

/-- The keys of the `generation_config` dict at the same call site. -/
def generation_config_keys : List String :=
  ["temperature", "top_p", "top_k", "max_output_tokens"]

/-- Expansion of one character under Python's `html.escape(s)` (quote=True),
used at src/app.py:1670,1715-1717,1732,1739. -/
def html_escape_char (c : Char) : List Char :=
  if c = '&' then "&amp;".data
  else if c = '<' then "&lt;".data
  else if c = '>' then "&gt;".data
  else if c = '"' then "&quot;".data
  else if c = Char.ofNat 39 then "&#x27;".data
  else [c]

/-- Python's `html.escape` with default `quote=True` (the sequential
`str.replace` calls of the stdlib act per character, `&` first, so the
character-wise expansion is equivalent). -/
def html_escape (s : String) : String :=
  String.mk (s.data.map html_escape_char).flatten

/-- The fields of one findings dict read by `create_photo_row_html`
(src/app.py:1700-1733); `none` models an absent key. -/
structure Finding where
  location : Option String
  current_state : Option String
  suggested_work : Option String
  priority : Option String
  notes : Option String

/-- The fields of one report item read by `create_photo_row_html`
(src/app.py:1670-1743). -/
structure ReportItem where
  file_name : Option String
  findings : List Finding
  observation : Option String

/-- The `priority_class` lookup (src/app.py:1702-1706). -/
def priority_class (p : String) : String :=
  if p = "高" then "finding-high"
  else if p = "中" then "finding-medium"
  else if p = "低" then "finding-low"
  else "finding-medium"

/-- The `priority_badge_class` lookup (src/app.py:1708-1712). -/
def priority_badge_class (p : String) : String :=
  if p = "高" then "priority-badge-high"
  else if p = "中" then "priority-badge-medium"
  else if p = "低" then "priority-badge-low"
  else "priority-badge-medium"

/-- HTML emitted for one finding (src/app.py:1698-1735).  Template whitespace
and indentation are condensed; every tag, attribute and interpolation is kept.
Note that `priority` is interpolated without `html.escape`, unlike
`location`, `current_state`, `suggested_work` and `notes`. -/
def finding_html (f : Finding) : String :=
  let priority := f.priority.getD "中"
  let location := html_escape (f.location.getD "N/A")
  let current_state := html_escape (f.current_state.getD "N/A")
  let suggested_work := html_escape (f.suggested_work.getD "N/A")
  "<div class=\"finding-item " ++ priority_class priority ++ "\">\n" ++
  "<div class=\"finding-location\">\n" ++ location ++ "\n" ++
  "<span class=\"priority-badge " ++ priority_badge_class priority ++ "\">" ++ priority ++ "</span>\n" ++
  "</div>\n<div class=\"finding-details\">\n" ++
  "<div><strong>現状:</strong> " ++ current_state ++ "</div>\n" ++
  "<div><strong>提案:</strong> " ++ suggested_work ++ "</div>\n" ++
  (match f.notes with
   | some n => if n ≠ "" then "<div><strong>備考:</strong> " ++ html_escape n ++ "</div>" else ""
   | none => "") ++
  "</div></div>"

/-- The photo half of the row (src/app.py:1674-1688): an `img` tag when a
Base64 thumbnail is available, a placeholder `div` otherwise. -/
def photo_part_html (index : Nat) (file_name_escaped : String)
    (img_base64 : Option String) : String :=
  match img_base64 with
  | some b64 =>
    "<img src=\"data:image/jpeg;base64," ++ b64 ++ "\" class=\"photo-img\" loading=\"lazy\" " ++
    "alt=\"現場写真 " ++ toString index ++ ": " ++ file_name_escaped ++ "\">"
  | none =>
    "<div style=\"height: 150px; background: #f3f4f6; display: flex; align-items: center; " ++
    "justify-content: center; border: 1px solid #e5e7eb;\">\n" ++
    "<span style=\"color: #9ca3af;\">画像を読み込めません</span>\n</div>"

/-- `ReportRenderer.create_photo_row_html` (src/app.py:1652-1755): the
read-only row for one photo.  `file_name` is `html.escape`d once and reused in
the `alt` attribute and the title; the findings loop, the observation branch
(guarded by Python truthiness of `item.get("observation")`) and the
no-findings fallback follow the source. -/
def create_photo_row_html (index : Nat) (item : ReportItem)
    (img_base64 : Option String) : String :=
  let file_name := html_escape (item.file_name.getD "")
  let photo_html := photo_part_html index file_name img_base64
  let content_html :=
    "<div class=\"photo-title\">\n<span class=\"photo-number\">" ++ toString index ++
    ".</span>\n<span class=\"photo-filename\">" ++ file_name ++ "</span>\n</div>" ++
    (match item.findings with
     | f :: fs => ((f :: fs).map finding_html).foldl (· ++ ·) ""
     | [] =>
       match item.observation with
       | some o =>
         if o ≠ "" then "<div class=\"observation-box\">" ++ html_escape o ++ "</div>"
         else "<div class=\"no-finding-box\">修繕必要箇所なし</div>"
       | none => "<div class=\"no-finding-box\">修繕必要箇所なし</div>")
  "<div class=\"photo-row fade-in\">\n<div class=\"photo-container\">\n" ++ photo_html ++
  "\n</div>\n<div class=\"content-container\">\n" ++ content_html ++ "\n</div>\n</div>"

/-- Replace each model-supplied string field named by the safety claim
(`location`, `current_state`, `suggested_work`, `notes`) with fixed benign
text, preserving everything that steers control flow or is interpolated
unescaped (the `priority` value, and the Python truthiness of `notes`). -/
def erase_finding (f : Finding) : Finding :=
  { location := some ""
    current_state := some ""
    suggested_work := some ""
    priority := f.priority
    notes := if f.notes.getD "" ≠ "" then some "x" else f.notes }

/-- Replace `file_name`, the findings' claimed fields and `observation` with
fixed benign text, preserving structure (findings count, observation
truthiness). -/
def erase_item (item : ReportItem) : ReportItem :=
  { file_name := some ""
    findings := item.findings.map erase_finding
    observation := if item.observation.getD "" ≠ "" then some "x" else item.observation }

/-- Occurrences of a character in a string. -/
def countChar (c : Char) (s : String) : Nat := s.data.count c

/-- The chunks concatenate back to the original list (holds for every `B`
because `chunks` treats `B = 0` like `B = 1`). -/
theorem chunks_flatten (B : Nat) : ∀ l : List α, (chunks B l).flatten = l
  | [] => by simp [chunks]
  | x :: xs => by
    rw [chunks]
    simp only [List.flatten_cons, List.cons_append]
    rw [chunks_flatten B (xs.drop (B - 1))]
    simp [List.take_append_drop]
termination_by l => l.length
decreasing_by simp only [List.length_drop, List.length_cons]; omega

/-- Number of chunks is the ceiling `⌈N / B⌉` for `B ≥ 1`. -/
theorem chunks_length (B : Nat) (hB : 1 ≤ B) :
    ∀ l : List α, (chunks B l).length = (l.length + B - 1) / B
  | [] => by
    simp only [chunks, List.length_nil]
    rw [Nat.div_eq_of_lt (by omega)]
  | x :: xs => by
    rw [chunks]
    simp only [List.length_cons]
    rw [chunks_length B hB (xs.drop (B - 1))]
    simp only [List.length_drop]
    rcases le_or_lt (B - 1) xs.length with h | h
    · have h1 : xs.length - (B - 1) + B - 1 = xs.length := by omega
      have h2 : xs.length + 1 + B - 1 = xs.length + B := by omega
      rw [h1, h2, Nat.add_div_right _ (by omega : 0 < B)]
    · have h1 : xs.length - (B - 1) + B - 1 = 0 + B - 1 := by omega
      rw [h1, Nat.div_eq_of_lt (by omega)]
      have h2 : xs.length + 1 + B - 1 = xs.length + B := by omega
      rw [h2, Nat.add_div_right _ (by omega : 0 < B),
        Nat.div_eq_of_lt (by omega : xs.length < B)]
termination_by l => l.length
decreasing_by simp only [List.length_drop, List.length_cons]; omega

/-- Every chunk is nonempty. -/
theorem chunks_ne_nil (B : Nat) : ∀ l : List α, ∀ c ∈ chunks B l, c ≠ []
  | [] => by simp [chunks]
  | x :: xs => by
    intro c hc
    rw [chunks] at hc
    rcases List.mem_cons.mp hc with hc | hc
    · simp [hc]
    · exact chunks_ne_nil B (xs.drop (B - 1)) c hc
termination_by l => l.length
decreasing_by simp only [List.length_drop, List.length_cons]; omega

/-- Every chunk has at most `B` elements (for `B ≥ 1`). -/
theorem chunks_size_le (B : Nat) (hB : 1 ≤ B) :
    ∀ l : List α, ∀ c ∈ chunks B l, c.length ≤ B
  | [] => by simp [chunks]
  | x :: xs => by
    intro c hc
    rw [chunks] at hc
    rcases List.mem_cons.mp hc with hc | hc
    · subst hc
      simp only [List.length_cons, List.length_take]
      omega
    · exact chunks_size_le B hB (xs.drop (B - 1)) c hc
termination_by l => l.length
decreasing_by simp only [List.length_drop, List.length_cons]; omega

/-- Every chunk except possibly the last has exactly `B` elements. -/
theorem chunks_full (B : Nat) (hB : 1 ≤ B) :
    ∀ l : List α, ∀ i, i + 1 < (chunks B l).length →
      ((chunks B l).getD i []).length = B
  | [], i => by simp [chunks]
  | x :: xs, i => by
    intro h
    rw [chunks] at h ⊢
    match i with
    | 0 =>
      simp only [List.length_cons] at h
      have hrest : chunks B (xs.drop (B - 1)) ≠ [] := by
        intro hnil
        rw [hnil] at h
        simp at h
      have hdrop : xs.drop (B - 1) ≠ [] := by
        intro hnil
        rw [hnil] at hrest
        simp [chunks] at hrest
      have hlen : B - 1 < xs.length := by
        by_contra hcon
        exact hdrop (List.drop_eq_nil_of_le (by omega))
      simp only [List.getD_cons_zero, List.length_cons, List.length_take]
      omega
    | i + 1 =>
      simp only [List.length_cons] at h
      simp only [List.getD_cons_succ]
      exact chunks_full B hB (xs.drop (B - 1)) i (by omega)
termination_by l => l.length
decreasing_by simp only [List.length_drop, List.length_cons]; omega

/-- C2: for every upload list of length `N ≥ 1` and batch size `B ≥ 1`, the
batch loop of `main` partitions the uploads into exactly `⌈N / B⌉`
consecutive chunks, each of size at most `B`, with every chunk before the
last of size exactly `B` (only the last may be smaller); concatenating the
chunks in order gives back the original list (so every upload occurs in
exactly one chunk, in the original order, with no reordering or
deduplication). -/
theorem C2_batch_partition (B : Nat) (l : List α) (hB : 1 ≤ B) (hN : 1 ≤ l.length) :
    (chunks B l).length = (l.length + B - 1) / B ∧
    (chunks B l).flatten = l ∧
    (∀ c ∈ chunks B l, c.length ≤ B) ∧
    (∀ i, i + 1 < (chunks B l).length → ((chunks B l).getD i []).length = B) := by
  exact ⟨chunks_length B hB l, chunks_flatten B l, chunks_size_le B hB l, chunks_full B hB l⟩

/-- Witness for C2 at `B = 2`, `l = [1, 2, 3]`. -/
theorem C2_batch_partition_witness :
    (chunks 2 [1, 2, 3]).length = (3 + 2 - 1) / 2 ∧
    (chunks 2 [1, 2, 3]).flatten = [1, 2, 3] ∧
    (∀ c ∈ chunks 2 [1, 2, 3], c.length ≤ 2) ∧
    (∀ i, i + 1 < (chunks 2 [1, 2, 3]).length →
      ((chunks 2 [1, 2, 3]).getD i []).length = 2) :=
  C2_batch_partition 2 [1, 2, 3] (by omega) (by simp)


theorem batch_data_none : batch_data (none : Option (List β)) = [] := rfl

theorem batch_data_some (l : List β) : batch_data (some l) = l := rfl

theorem batch_failed_none : batch_failed (none : Option (List β)) = true := rfl

theorem batch_failed_some_nil : batch_failed (some ([] : List β)) = true := rfl

theorem batch_failed_some_cons (d : β) (ds : List β) :
    batch_failed (some (d :: ds)) = false := rfl

/-- Generalised fold specification of the batch loop: from any accumulator,
every batch contributes its success data (in order) and every failed batch
adds one to the error count. -/
theorem foldl_process_batch_step (outcome : List α → Option (List β))
    (bs : List (List α)) :
    ∀ acc : List β × Nat,
      bs.foldl (process_batch_step outcome) acc =
        (acc.1 ++ (bs.map (fun b => batch_data (outcome b))).flatten,
         acc.2 + bs.countP (fun b => batch_failed (outcome b))) := by
  induction bs with
  | nil => intro acc; simp
  | cons b bs ih =>
    intro acc
    rw [List.foldl_cons, ih]
    simp only [List.map_cons, List.flatten_cons, List.countP_cons]
    have hstep : process_batch_step outcome acc b =
        (acc.1 ++ batch_data (outcome b),
         acc.2 + (if batch_failed (outcome b) then 1 else 0)) := by
      unfold process_batch_step
      match houtcome : outcome b with
      | none => simp [batch_data_none, batch_failed_none]
      | some [] => simp [batch_data_some, batch_failed_some_nil]
      | some (d :: ds) => simp [batch_data_some, batch_failed_some_cons]
    rw [hstep]
    simp only [Prod.mk.injEq]
    constructor
    · simp [List.append_assoc]
    · omega

/-- C3: the batch loop of `main` never aborts on a failed batch: for every
batch list and every per-batch outcome function, the loop's final state is
exactly the in-order concatenation of all successful batches' data together
with one recorded error per failed batch — every batch after a failure is
still processed and aggregated. -/
theorem C3_no_abort_on_failure (outcome : List α → Option (List β))
    (bs : List (List α)) :
    process_batches outcome bs =
      ((bs.map (fun b => batch_data (outcome b))).flatten,
       bs.countP (fun b => batch_failed (outcome b))) := by
  unfold process_batches
  rw [foldl_process_batch_step]
  simp

/-- Per-batch accounting for C9: when every successful batch returns exactly
one record per photo, the items plus the failed batches' photos add up to the
whole input. -/
theorem per_batch_length (outcome : List α → Option (List β)) :
    ∀ bs : List (List α),
      (∀ b ∈ bs, b ≠ []) →
      (∀ b ∈ bs, ∀ l, outcome b = some l → l.length = b.length) →
      ((bs.map (fun b => batch_data (outcome b))).flatten).length +
        ((bs.filter (fun b => batch_failed (outcome b))).map List.length).sum
      = (bs.map List.length).sum := by
  intro bs
  induction bs with
  | nil => simp
  | cons b bs ih =>
    intro hne h
    have hbne : b ≠ [] := hne b (List.mem_cons_self b bs)
    have ihh := ih (fun x hx => hne x (List.mem_cons_of_mem b hx))
      (fun x hx => h x (List.mem_cons_of_mem b hx))
    simp only [List.map_cons, List.flatten_cons, List.filter_cons, List.length_append,
      List.sum_cons]
    match houtcome : outcome b with
    | none =>
      simp only [batch_data_none, batch_failed_none, List.length_nil, if_pos,
        List.map_cons, List.sum_cons]
      omega
    | some [] =>
      have := h b (List.mem_cons_self b bs) [] houtcome
      simp only [List.length_nil] at this
      exact absurd (List.eq_nil_of_length_eq_zero this.symm) hbne
    | some (d :: ds) =>
      have hlen := h b (List.mem_cons_self b bs) (d :: ds) houtcome
      simp only [batch_data_some, batch_failed_some_cons, Bool.false_eq_true, if_false]
      rw [hlen]
      omega

/-- C9 counterexample: one upload, one batch, but the model's decoded array
for that batch has two elements; the aggregated item count (2) exceeds
`total_photo_count` (1), so `len(Report.items) <= total_photo_count` fails —
nothing in the loop bounds a successful batch's element count. -/
theorem C9_counterexample :
    ¬ ((process_batches (fun _ => some [JsonValue.obj [], JsonValue.obj []])
          (chunks AppConfig.BATCH_SIZE ["p1.jpg"])).1.length
        ≤ (["p1.jpg"] : List String).length) := by
  intro h
  simp [process_batches, process_batch_step, chunks, AppConfig.BATCH_SIZE] at h

/-- C9 as amended: *if* every successful batch decodes to exactly one record
per photo of that batch, then the aggregated items plus the photos of the
failed batches account exactly for every upload, and in particular
`items.length ≤ total_photo_count`. -/
theorem C9_amended (B : Nat) (uploads : List α)
    (outcome : List α → Option (List β)) (hB : 1 ≤ B)
    (h : ∀ b ∈ chunks B uploads, ∀ l, outcome b = some l → l.length = b.length) :
    (process_batches outcome (chunks B uploads)).1.length +
        (((chunks B uploads).filter (fun b => batch_failed (outcome b))).map
          List.length).sum
      = uploads.length ∧
    (process_batches outcome (chunks B uploads)).1.length ≤ uploads.length := by
  have hmain :
      (process_batches outcome (chunks B uploads)).1.length +
        (((chunks B uploads).filter (fun b => batch_failed (outcome b))).map
          List.length).sum
      = uploads.length := by
    rw [C3_no_abort_on_failure]
    have hacc := per_batch_length outcome (chunks B uploads)
      (chunks_ne_nil B uploads) h
    rw [hacc]
    have hflat := chunks_flatten B uploads (α := α)
    calc ((chunks B uploads).map List.length).sum
        = (chunks B uploads).flatten.length := (List.length_flatten _).symm
      _ = uploads.length := by rw [hflat]
  exact ⟨hmain, by omega⟩

/-- Witness for C9 as amended: `B = 2`, three uploads, the full batch
succeeds with one record per photo, the singleton batch fails. -/
theorem C9_amended_witness :
    (process_batches
        (fun b => if b.length = 2 then some [0, 1] else none)
        (chunks 2 ["a", "b", "c"])).1.length +
      (((chunks 2 ["a", "b", "c"]).filter
          (fun b => batch_failed
            ((fun b => if b.length = 2 then some [0, 1] else none) b))).map
        List.length).sum
    = (["a", "b", "c"] : List String).length ∧
    (process_batches
        (fun b => if b.length = 2 then some [0, 1] else none)
        (chunks 2 ["a", "b", "c"])).1.length
      ≤ (["a", "b", "c"] : List String).length := by
  refine C9_amended 2 ["a", "b", "c"]
    (fun b => if b.length = 2 then some ([0, 1] : List Nat) else none)
    (by omega) ?_
  intro b hb l hl
  simp [chunks] at hb
  rcases hb with hb | hb <;> subst hb <;> simp_all
  subst hl
  simp

/-- C4: for every per-attempt call behaviour, `generate_ai_report` makes at
most `MAX_RETRIES` (3) external call attempts with strictly increasing sleeps
between consecutive attempts (`RETRY_DELAY_SECONDS * (retry_count + 1)`:
2s then 4s), and when every attempt raises, the batch ends with `None`
after exactly 3 attempts and the *last* error message displayed via
`st.error` — the failure is recorded, never silently dropped. -/
theorem C4_retry_policy (call : Nat → Except String String) (e0 e1 e2 : String) :
    (generate_ai_report call 0).attempts ≤ AppConfig.MAX_RETRIES ∧
    List.Chain' (· < ·) (generate_ai_report call 0).delays ∧
    ((call 0 = .error e0 ∧ call 1 = .error e1 ∧ call 2 = .error e2) →
      generate_ai_report call 0 =
        { result := none, attempts := 3, delays := [2, 4],
          displayed_error := some e2 }) := by
  unfold generate_ai_report
  simp only [AppConfig.MAX_RETRIES]
  rcases hc0 : call 0 with s0 | s0 <;>
    rcases hc1 : call 1 with s1 | s1 <;>
      rcases hc2 : call 2 with s2 | s2 <;>
        simp_all [generate_ai_report_go, AppConfig.RETRY_DELAY_SECONDS]

/-- Witness for C4: every attempt fails with message "boom". -/
theorem C4_retry_policy_witness :
    generate_ai_report (fun _ => Except.error "boom") 0 =
      { result := none, attempts := 3, delays := [2, 4],
        displayed_error := some "boom" } :=
  (C4_retry_policy (fun _ => Except.error "boom") "boom" "boom" "boom").2.2
    ⟨rfl, rfl, rfl⟩

/-- C7: the configured timeout `AI_TIMEOUT_SECONDS = 60` exists, but the
`model.generate_content` call receives neither a `timeout` nor a
`request_options` argument, and the `generation_config` dict carries no
timeout key either — the timeout bound is not applied to the outbound call,
so a stuck call blocks indefinitely and no `TimeoutError` is ever raised by
this code path. -/
theorem C7_timeout_never_applied :
    AppConfig.AI_TIMEOUT_SECONDS = 60 ∧
    "timeout" ∉ generate_content_kwargs ∧
    "request_options" ∉ generate_content_kwargs ∧
    "timeout" ∉ generation_config_keys := by
  refine ⟨rfl, ?_, ?_, ?_⟩ <;> decide

theorem strategy1_empty : strategy1 "" = none := rfl

theorem strategy2_empty : strategy2 "" = none := rfl

theorem strategy3_empty : strategy3 "" = none := rfl

theorem strategy4_empty : strategy4 "" = none := rfl

/-- C1: `parse_json_response` returns `some v` exactly when one of its four
strategies — tried strictly in source order — fully decodes to `v` while
every earlier strategy fails; the result is always that single strategy's
output, never a mixture.  (On empty input no strategy is consulted, and
equally no strategy could succeed.) -/
theorem C1_strategy_order (t : String) (v : JsonValue) :
    parse_json_response t = some v ↔
      ∃ i, i < 4 ∧ strategyAt i t = some v ∧ ∀ j, j < i → strategyAt j t = none := by
  have hAt0 : strategyAt 0 t = strategy1 t := rfl
  have hAt1 : strategyAt 1 t = strategy2 t := rfl
  have hAt2 : strategyAt 2 t = strategy3 t := rfl
  have hAt3 : strategyAt 3 t = strategy4 t := rfl
  by_cases ht : t = ""
  · subst ht
    constructor
    · intro h
      rw [parse_json_response] at h
      simp at h
    · rintro ⟨i, hi, hsome, -⟩
      interval_cases i
      · rw [hAt0, strategy1_empty] at hsome; cases hsome
      · rw [hAt1, strategy2_empty] at hsome; cases hsome
      · rw [hAt2, strategy3_empty] at hsome; cases hsome
      · rw [hAt3, strategy4_empty] at hsome; cases hsome
  · rw [parse_json_response, if_neg ht]
    rcases h1 : strategy1 t with - | v1
    · rcases h2 : strategy2 t with - | v2
      · rcases h3 : strategy3 t with - | v3
        · simp only [h1, h2, h3]
          constructor
          · intro h4
            refine ⟨3, by omega, by rw [hAt3]; exact h4, ?_⟩
            intro j hj
            interval_cases j
            · rw [hAt0]; exact h1
            · rw [hAt1]; exact h2
            · rw [hAt2]; exact h3
          · rintro ⟨i, hi, hsome, hprev⟩
            interval_cases i
            · rw [hAt0, h1] at hsome; cases hsome
            · rw [hAt1, h2] at hsome; cases hsome
            · rw [hAt2, h3] at hsome; cases hsome
            · rw [hAt3] at hsome; exact hsome
        · simp only [h1, h2, h3]
          constructor
          · intro h
            refine ⟨2, by omega, by rw [hAt2, h3]; exact h, ?_⟩
            intro j hj
            interval_cases j
            · rw [hAt0]; exact h1
            · rw [hAt1]; exact h2
          · rintro ⟨i, hi, hsome, hprev⟩
            interval_cases i
            · rw [hAt0, h1] at hsome; cases hsome
            · rw [hAt1, h2] at hsome; cases hsome
            · rw [hAt2, h3] at hsome; exact hsome
            · have := hprev 2 (by omega)
              rw [hAt2, h3] at this; cases this
      · simp only [h1, h2]
        constructor
        · intro h
          refine ⟨1, by omega, by rw [hAt1, h2]; exact h, ?_⟩
          intro j hj
          interval_cases j
          rw [hAt0]; exact h1
        · rintro ⟨i, hi, hsome, hprev⟩
          interval_cases i
          · rw [hAt0, h1] at hsome; cases hsome
          · rw [hAt1, h2] at hsome; exact hsome
          · have := hprev 1 (by omega)
            rw [hAt1, h2] at this; cases this
          · have := hprev 1 (by omega)
            rw [hAt1, h2] at this; cases this
    · simp only [h1]
      constructor
      · intro h
        exact ⟨0, by omega, by rw [hAt0, h1]; exact h, by intro j hj; omega⟩
      · rintro ⟨i, hi, hsome, hprev⟩
        interval_cases i
        · rw [hAt0, h1] at hsome; exact hsome
        · have := hprev 0 (by omega)
          rw [hAt0, h1] at this; cases this
        · have := hprev 0 (by omega)
          rw [hAt0, h1] at this; cases this
        · have := hprev 0 (by omega)
          rw [hAt0, h1] at this; cases this

/-- C5 counterexample: the parser's failure value is the bare `None` — two
different unparseable raw texts produce the *same* failure value, so the
returned value cannot carry the original input text (no `ParseFailure(raw)`
type exists in the code; the raw text is only displayed, not returned). -/
theorem C5_counterexample :
    parse_json_response "not json at all" = none ∧
    parse_json_response "other garbage ((" = none ∧
    parse_json_response "not json at all" = parse_json_response "other garbage ((" ∧
    "not json at all" ≠ "other garbage ((" := by
  refine ⟨rfl, rfl, rfl, by decide⟩

/-- C5 as amended: on any nonempty text where all four strategies fail, the
parser returns `None` (a value that carries nothing), and the raw text is
preserved verbatim only in the UI error expander (`st.code(text)`), shown
untruncated. -/
theorem C5_failure_display (t : String) (hne : t ≠ "")
    (h : ∀ i, i < 4 → strategyAt i t = none) :
    parse_json_response t = none ∧ parse_error_display t = some t := by
  have h0 : strategy1 t = none := h 0 (by omega)
  have h1 : strategy2 t = none := h 1 (by omega)
  have h2 : strategy3 t = none := h 2 (by omega)
  have h3 : strategy4 t = none := h 3 (by omega)
  have hp : parse_json_response t = none := by
    rw [parse_json_response, if_neg hne, h0, h1, h2, h3]
  refine ⟨hp, ?_⟩
  rw [parse_error_display, if_neg hne, hp]

/-- Witness for C5 as amended at the unparseable text `"not json at all"`. -/
theorem C5_failure_display_witness :
    parse_json_response "not json at all" = none ∧
    parse_error_display "not json at all" = some "not json at all" :=
  C5_failure_display "not json at all" (by decide)
    (by intro i hi; interval_cases i <;> rfl)

/-- Which decoded array elements are objects carrying a `file_name` key. -/
def jsonHasKey (k : String) : JsonValue → Bool
  | .obj ms => ms.any (fun m => m.1 == k)
  | _ => false

/-- C6 counterexample: a decoded batch whose first element has no `file_name`
key is returned by `parse_json_response` with that malformed element intact —
nothing is dropped or flagged, so the claimed per-element validation does not
exist. -/
theorem C6_counterexample :
    parse_json_response "[\x7b\"x\":1\x7d,\x7b\"file_name\":\"a\"\x7d]" =
      some (.arr [.obj [("x", .num "1")], .obj [("file_name", .str "a")]]) ∧
    jsonHasKey "file_name" (.obj [("x", .num "1")]) = false := by
  exact ⟨rfl, rfl⟩

/-- C6 as amended: `parse_json_response` performs no per-element validation
at all: whatever strategy 1 decodes is returned unchanged, malformed elements
included; in particular a malformed element never escalates to a failure of
the batch (and equally is never dropped or flagged). -/
theorem C6_no_element_validation (t : String) (v : JsonValue)
    (h : strategy1 t = some v) : parse_json_response t = some v := by
  have hne : t ≠ "" := by
    intro he
    subst he
    rw [strategy1_empty] at h
    cases h
  rw [parse_json_response, if_neg hne, h]

/-- Witness for C6 as amended at the batch with one malformed element. -/
theorem C6_no_element_validation_witness :
    parse_json_response "[\x7b\"x\":1\x7d,\x7b\"file_name\":\"a\"\x7d]" =
      some (.arr [.obj [("x", .num "1")], .obj [("file_name", .str "a")]]) :=
  C6_no_element_validation "[\x7b\"x\":1\x7d,\x7b\"file_name\":\"a\"\x7d]"
    (.arr [.obj [("x", .num "1")], .obj [("file_name", .str "a")]]) rfl

theorem html_escape_char_no_angle (c : Char) :
    '<' ∉ html_escape_char c ∧ '>' ∉ html_escape_char c := by
  unfold html_escape_char
  split_ifs with h1 h2 h3 h4 h5
  · exact ⟨by decide, by decide⟩
  · exact ⟨by decide, by decide⟩
  · exact ⟨by decide, by decide⟩
  · exact ⟨by decide, by decide⟩
  · exact ⟨by decide, by decide⟩
  · constructor <;> intro hm <;> rw [List.mem_singleton] at hm
    · exact h2 hm.symm
    · exact h3 hm.symm

theorem countChar_html_escape_of_angle (c : Char) (hc : c = '<' ∨ c = '>')
    (s : String) : countChar c (html_escape s) = 0 := by
  unfold countChar
  rw [List.count_eq_zero]
  intro hmem
  have hdata : (html_escape s).data = (s.data.map html_escape_char).flatten := rfl
  rw [hdata, List.mem_flatten] at hmem
  obtain ⟨piece, hp, hcp⟩ := hmem
  rw [List.mem_map] at hp
  obtain ⟨ch, -, rfl⟩ := hp
  rcases hc with rfl | rfl
  · exact (html_escape_char_no_angle ch).1 hcp
  · exact (html_escape_char_no_angle ch).2 hcp

theorem countChar_append (c : Char) (a b : String) :
    countChar c (a ++ b) = countChar c a + countChar c b := by
  unfold countChar
  have hdata : (a ++ b).data = a.data ++ b.data := rfl
  rw [hdata, List.count_append]

theorem countChar_foldl_append (c : Char) (l : List String) :
    ∀ acc : String, countChar c (l.foldl (· ++ ·) acc) =
      countChar c acc + (l.map (countChar c)).sum := by
  induction l with
  | nil => intro acc; simp
  | cons s l ih =>
    intro acc
    rw [List.foldl_cons, ih, countChar_append]
    simp only [List.map_cons, List.sum_cons]
    omega

/-- The angle-bracket count of one finding's row fragment does not change
when the claim's named fields are erased: those fields only ever enter the
output through `html.escape`. -/
theorem countChar_finding_html (c : Char) (hc : c = '<' ∨ c = '>')
    (f : Finding) :
    countChar c (finding_html f) = countChar c (finding_html (erase_finding f)) := by
  have hz := countChar_html_escape_of_angle c hc
  rcases hn : f.notes with - | n
  · simp [finding_html, erase_finding, hn, countChar_append, hz]
  · by_cases hne : n = ""
    · subst hne
      simp [finding_html, erase_finding, hn, countChar_append, hz]
    · simp [finding_html, erase_finding, hn, hne, countChar_append, hz]

/-- C10 core: the number of `<` (or `>`) characters emitted by
`create_photo_row_html` is unchanged when `file_name`, every finding's
`location`, `current_state`, `suggested_work` and `notes`, and the
`observation` text are all replaced by fixed benign values — i.e. no raw
markup from those model-supplied fields ever reaches the rendered HTML,
because each is passed through `html.escape` before interpolation. -/
theorem countChar_row_erase (c : Char) (hc : c = '<' ∨ c = '>')
    (index : Nat) (item : ReportItem) (img : Option String) :
    countChar c (create_photo_row_html index item img) =
      countChar c (create_photo_row_html index (erase_item item) img) := by
  have hz := countChar_html_escape_of_angle c hc
  have hfind : ∀ x : Finding,
      countChar c (finding_html (erase_finding x)) = countChar c (finding_html x) :=
    fun x => (countChar_finding_html c hc x).symm
  rcases item with ⟨fn, findings, obs⟩
  cases findings with
  | nil =>
    rcases obs with - | o
    · have hobs : (if (none : Option String).getD "" ≠ "" then some "x"
          else (none : Option String)) = none := rfl
      rcases img with - | b64 <;>
      · simp only [create_photo_row_html, photo_part_html, erase_item, List.map_nil,
          hobs, countChar_append, hz]
    · by_cases ho : o = ""
      · subst ho
        have hobs : (if (some ("" : String)).getD "" ≠ "" then some "x"
            else some ("" : String)) = some "" := rfl
        have hrender : (if ("" : String) ≠ "" then
              "<div class=\"observation-box\">" ++ html_escape "" ++ "</div>"
            else "<div class=\"no-finding-box\">修繕必要箇所なし</div>")
            = "<div class=\"no-finding-box\">修繕必要箇所なし</div>" := rfl
        rcases img with - | b64 <;>
        · simp only [create_photo_row_html, photo_part_html, erase_item, List.map_nil,
            hobs, hrender, countChar_append, hz]
      · have hobs : (if (some o).getD "" ≠ "" then some "x" else some o)
            = some "x" := by
          rw [if_pos]
          simpa using ho
        have hxrender : (if ("x" : String) ≠ "" then
              "<div class=\"observation-box\">" ++ html_escape "x" ++ "</div>"
            else "<div class=\"no-finding-box\">修繕必要箇所なし</div>")
            = "<div class=\"observation-box\">" ++ html_escape "x" ++ "</div>" := rfl
        rcases img with - | b64 <;>
        · simp only [create_photo_row_html, photo_part_html, erase_item, List.map_nil,
            hobs, hxrender, countChar_append, hz]
          rw [if_pos (show (o : String) ≠ "" from ho)]
          simp only [countChar_append, hz]
  | cons f fs =>
    have htail : ∀ gs : List Finding,
        gs.map (fun x => countChar c (finding_html (erase_finding x))) =
        gs.map (fun x => countChar c (finding_html x)) := by
      intro gs
      induction gs with
      | nil => simp only [List.map_nil]
      | cons g gs ih => simp only [List.map_cons, ih, hfind g]
    rcases img with - | b64 <;>
    · simp only [create_photo_row_html, photo_part_html, erase_item, List.map_cons,
        List.map_map, Function.comp_def, countChar_append, countChar_foldl_append, hz]
      rw [hfind f, htail fs]

/-- C10: both angle-bracket counts of the rendered read-only photo row are
independent of every model-supplied string field that the claim names. -/
theorem C10_fields_escaped (index : Nat) (item : ReportItem) (img : Option String) :
    countChar '<' (create_photo_row_html index item img) =
      countChar '<' (create_photo_row_html index (erase_item item) img) ∧
    countChar '>' (create_photo_row_html index item img) =
      countChar '>' (create_photo_row_html index (erase_item item) img) :=
  ⟨countChar_row_erase '<' (Or.inl rfl) index item img,
   countChar_row_erase '>' (Or.inr rfl) index item img⟩

/-- The scanner rejects any text whose first character is not a possible
JSON start character (Python raises "Expecting value"). -/
theorem parseValue_not_starter (fuel : Nat) (c : Char) (cs : List Char)
    (hws : isJsonWs c = false)
    (hn : c ≠ 'n') (ht : c ≠ 't') (hf : c ≠ 'f') (hN : c ≠ 'N') (hq : c ≠ '"')
    (hlb : c ≠ '[') (hob : c ≠ '{') (hm : c ≠ '-') (hd : c.isDigit = false)
    (hI : c ≠ 'I') :
    parseValue fuel (c :: cs) = none := by
  cases fuel with
  | zero => rfl
  | succ fuel =>
    rw [parseValue]
    simp only [skipWs, List.dropWhile_cons, hws, Bool.false_eq_true, if_false, ite_false]
    rw [if_neg hn, if_neg ht, if_neg hf, if_neg hN, if_neg hq, if_neg hlb, if_neg hob,
      if_neg (by simp [hm, hd]), if_neg hI]

/-- `json.loads` fails on any text whose first character is not a JSON start
character. -/
theorem jsonLoads_none_of_head (s : String) (c : Char) (rest : List Char)
    (hdata : s.data = c :: rest)
    (hws : isJsonWs c = false)
    (hn : c ≠ 'n') (ht : c ≠ 't') (hf : c ≠ 'f') (hN : c ≠ 'N') (hq : c ≠ '"')
    (hlb : c ≠ '[') (hob : c ≠ '{') (hm : c ≠ '-') (hd : c.isDigit = false)
    (hI : c ≠ 'I') :
    jsonLoads s = none := by
  unfold jsonLoads
  rw [hdata, parseValue_not_starter (2 * s.length + 8) c rest hws hn ht hf hN hq hlb hob
    hm hd hI]

/-- The fence regex cannot match a text with no backtick at all. -/
theorem fenceSearch_no_backtick : ∀ cs : List Char, backtick ∉ cs → fenceSearch cs = none
  | [], _ => rfl
  | c :: cs, h => by
    rw [fenceSearch, if_neg, fenceSearch_no_backtick cs (fun hm => h (List.mem_cons_of_mem c hm))]
    intro hcond
    exact h (hcond.1 ▸ List.mem_cons_self c cs)

/-- Strategy 2 yields nothing on a text with no backtick. -/
theorem strategy2_no_backtick (s : String) (h : backtick ∉ s.data) : strategy2 s = none := by
  unfold strategy2
  rw [fenceSearch_no_backtick s.data h]
  rfl

/-- The array-span regex search skips any prefix with no opening bracket. -/
theorem arraySpanSearch_append : ∀ cs : List Char, ∀ ds : List Char, '[' ∉ cs →
    arraySpanSearch (cs ++ ds) = arraySpanSearch ds
  | [], ds, _ => rfl
  | c :: cs, ds, h => by
    rw [List.cons_append, arraySpanSearch, if_neg,
      arraySpanSearch_append cs ds (fun hm => h (List.mem_cons_of_mem c hm))]
    intro hcond
    exact h (hcond ▸ List.mem_cons_self c cs)

/-- Without any closing brace there is no array-of-objects span. -/
theorem greedyCloseSpan_no_brace : ∀ cs : List Char, '}' ∉ cs →
    greedyCloseSpan cs = none
  | [], _ => rfl
  | c :: cs, h => by
    rw [greedyCloseSpan, greedyCloseSpan_no_brace cs (fun hm => h (List.mem_cons_of_mem c hm))]
    rw [if_neg]
    intro hcond
    exact h (hcond.1 ▸ List.mem_cons_self c cs)

/-- Greedy closing: with no brace after it, the final `}` `]` pair closes the
span, and everything before it is swallowed by `.*`. -/
theorem greedyCloseSpan_append : ∀ as : List Char, ∀ bs : List Char, '}' ∉ bs →
    greedyCloseSpan (as ++ '}' :: ']' :: bs) = some (as ++ ['}', ']'])
  | [], bs, h => by
    rw [List.nil_append, greedyCloseSpan,
      greedyCloseSpan_no_brace (']' :: bs)
        (fun hm => by
          rcases List.mem_cons.mp hm with hm | hm
          · cases hm
          · exact h hm)]
    rw [if_pos]
    · simp [List.takeWhile_cons, isPyWs]
    · refine ⟨rfl, ?_⟩
      simp [List.dropWhile_cons, isPyWs]
  | a :: as, bs, h => by
    rw [List.cons_append, greedyCloseSpan, greedyCloseSpan_append as bs h]
    simp [List.cons_append]

/-- After the opening `[`, the regex piece `\s*\{` then the greedy close. -/
theorem spanFrom_obj (mid suffix : List Char) (h : '}' ∉ suffix) :
    spanFrom ('{' :: (mid ++ '}' :: ']' :: suffix)) =
      some ('{' :: (mid ++ ['}', ']'])) := by
  have hdrop : List.dropWhile isPyWs ('{' :: (mid ++ '}' :: ']' :: suffix)) =
      '{' :: (mid ++ '}' :: ']' :: suffix) := by
    rw [List.dropWhile_cons]; simp [isPyWs]
  have htake : List.takeWhile isPyWs ('{' :: (mid ++ '}' :: ']' :: suffix)) = [] := by
    rw [List.takeWhile_cons]; simp [isPyWs]
  simp only [spanFrom, hdrop, htake, greedyCloseSpan_append mid suffix h,
    eq_self_iff_true, if_true, List.nil_append]
  rfl

/-- The strategy-3 regex on a text starting with an array-of-objects literal
followed by brace-free prose matches exactly the literal. -/
theorem arraySpanSearch_obj (mid suffix : List Char) (h : '}' ∉ suffix) :
    arraySpanSearch ('[' :: '{' :: (mid ++ '}' :: ']' :: suffix)) =
      some ('[' :: '{' :: (mid ++ ['}', ']'])) := by
  rw [arraySpanSearch, if_pos rfl, spanFrom_obj mid suffix h]

theorem getLast?_mem_char : ∀ (l : List Char) (c : Char), l.getLast? = some c → c ∈ l
  | [], c, h => by cases h
  | [x], c, h => by
    have hx : some x = some c := h
    injection hx with hx
    exact hx ▸ List.mem_cons_self x []
  | x :: y :: ys, c, h => by
    rw [List.getLast?_cons_cons] at h
    exact List.mem_cons_of_mem x (getLast?_mem_char (y :: ys) c h)

/-- The lazy-close check of the fence regex fails at every position of
backtick-free content that still has a non-whitespace character ahead. -/
theorem closes_check_fails : ∀ xs ds : List Char,
    (∀ c ∈ xs, c ≠ backtick) → (∃ c ∈ xs, isPyWs c = false) →
    ((xs ++ ds).dropWhile isPyWs).take 3 ≠ tripleBacktick
  | [], _, _, hex => by simp at hex
  | x :: xs, ds, hb, hex => by
    by_cases hx : isPyWs x = true
    · rw [List.cons_append, List.dropWhile_cons, if_pos hx]
      apply closes_check_fails xs ds (fun c hc => hb c (List.mem_cons_of_mem x hc))
      rcases hex with ⟨c, hc, hcw⟩
      rcases List.mem_cons.mp hc with rfl | hc
      · rw [hx] at hcw; cases hcw
      · exact ⟨c, hc, hcw⟩
    · rw [List.cons_append, List.dropWhile_cons, if_neg hx]
      intro heq
      rw [show (3 : Nat) = 2 + 1 from rfl, List.take_succ_cons] at heq
      simp only [tripleBacktick] at heq
      injection heq with h1 _
      exact hb x (List.mem_cons_self x xs) h1

/-- The lazy capture of the fence regex on backtick-free content (ending in a
non-whitespace character) followed by any tail that opens with whitespace and
a closing fence is the content itself. -/
theorem lazyClose_append (ds : List Char)
    (hds : (ds.dropWhile isPyWs).take 3 = tripleBacktick) : ∀ xs : List Char,
    (∀ c ∈ xs, c ≠ backtick) →
    (∀ c, xs.getLast? = some c → isPyWs c = false) →
    lazyClose (xs ++ ds) = some xs
  | [], _, _ => by
    rw [List.nil_append, lazyClose.eq_def, if_pos hds]
  | x :: xs, hb, hlast => by
    have hex : ∃ c ∈ x :: xs, isPyWs c = false := by
      cases hxs : xs with
      | nil =>
        refine ⟨x, List.mem_cons_self x [], hlast x ?_⟩
        rw [hxs]
        rfl
      | cons y ys =>
        obtain ⟨c, hc⟩ : ∃ c, (y :: ys).getLast? = some c := by
          cases hgy : (y :: ys).getLast? with
          | none =>
            exact absurd hgy (by simp [List.getLast?_eq_none_iff])
          | some c => exact ⟨c, rfl⟩
        refine ⟨c, ?_, hlast c (by rw [hxs, List.getLast?_cons_cons]; exact hc)⟩
        exact List.mem_cons_of_mem x (getLast?_mem_char (y :: ys) c hc)
    have hfail := closes_check_fails (x :: xs) ds hb hex
    rw [lazyClose.eq_def, if_neg hfail]
    have hrec := lazyClose_append ds hds xs (fun c hc => hb c (List.mem_cons_of_mem x hc))
      (by
        intro c hc
        apply hlast
        cases hxs : xs with
        | nil => rw [hxs] at hc; cases hc
        | cons y ys =>
          rw [List.getLast?_cons_cons]
          rw [hxs] at hc
          exact hc)
    simp only [List.cons_append]
    rw [hrec]
    rfl


theorem dropWhile_append_all (p : Char → Bool) :
    ∀ w l : List Char, (∀ c ∈ w, p c = true) →
      List.dropWhile p (w ++ l) = List.dropWhile p l
  | [], l, _ => rfl
  | x :: w, l, h => by
    rw [List.cons_append, List.dropWhile_cons, if_pos (h x (List.mem_cons_self x w))]
    exact dropWhile_append_all p w l (fun c hc => h c (List.mem_cons_of_mem x hc))

theorem dropWhile_append_stops (p : Char → Bool) :
    ∀ w l : List Char, (∃ c ∈ w, p c = false) →
      List.dropWhile p (w ++ l) = List.dropWhile p w ++ l
  | [], l, hex => by simp at hex
  | x :: w, l, hex => by
    by_cases hx : p x = true
    · rw [List.cons_append, List.dropWhile_cons, if_pos hx, List.dropWhile_cons, if_pos hx]
      apply dropWhile_append_stops p w l
      rcases hex with ⟨c, hc, hcf⟩
      rcases List.mem_cons.mp hc with rfl | hc
      · rw [hx] at hcf; cases hcf
      · exact ⟨c, hc, hcf⟩
    · rw [List.cons_append, List.dropWhile_cons, if_neg hx, List.dropWhile_cons, if_neg hx,
        List.cons_append]

theorem dropWhile_head_mem (p : Char → Bool) :
    ∀ l c r, List.dropWhile p l = c :: r → c ∈ l ∧ p c = false
  | [], c, r, h => by cases h
  | x :: l, c, r, h => by
    by_cases hx : p x = true
    · rw [List.dropWhile_cons, if_pos hx] at h
      have hrec := dropWhile_head_mem p l c r h
      exact ⟨List.mem_cons_of_mem x hrec.1, hrec.2⟩
    · rw [List.dropWhile_cons, if_neg hx] at h
      injection h with h1 h2
      subst h1
      exact ⟨List.mem_cons_self x l, by simpa using hx⟩

theorem skipWs_ne_nil_of_mem : ∀ r : List Char, ∀ c, c ∈ r → isJsonWs c = false →
    skipWs r ≠ []
  | [], c, hc, _ => by cases hc
  | x :: r, c, hc, hcf => by
    unfold skipWs
    rw [List.dropWhile_cons]
    by_cases hx : isJsonWs x = true
    · rw [if_pos hx]
      rcases List.mem_cons.mp hc with rfl | hc2
      · rw [hx] at hcf; cases hcf
      · exact skipWs_ne_nil_of_mem r c hc2 hcf
    · rw [if_neg hx]
      exact List.cons_ne_nil x r

/-- The scanner rejects any text whose first non-whitespace character cannot
begin a JSON value, wherever that character sits. -/
theorem parseValue_skipWs_not_starter (fuel : Nat) (cs : List Char) (c : Char)
    (r : List Char) (hskip : skipWs cs = c :: r) (hc : jsonStarter c = false) :
    parseValue fuel cs = none := by
  have hcs : isJsonWs c = false ∧ c ≠ 'n' ∧ c ≠ 't' ∧ c ≠ 'f' ∧ c ≠ 'N' ∧ c ≠ 'I' ∧
      c ≠ '"' ∧ c ≠ '[' ∧ c ≠ '{' ∧ c ≠ '-' ∧ c.isDigit = false := by
    simp only [jsonStarter, Bool.or_eq_false_iff, beq_eq_false_iff_ne, ne_eq] at hc
    tauto
  obtain ⟨hws, hn, ht, hf, hN, hI, hq, hlb, hob, hm, hdg⟩ := hcs
  cases fuel with
  | zero => rfl
  | succ fuel =>
    simp only [parseValue, hskip]
    rw [if_neg hn, if_neg ht, if_neg hf, if_neg hN, if_neg hq, if_neg hlb, if_neg hob,
      if_neg (by simp [hm, hdg]), if_neg hI]

/-- `json.loads` fails on any text whose first non-whitespace character
cannot begin a JSON value. -/
theorem jsonLoads_none_of_skipWs (s : String) (c : Char) (r : List Char)
    (hskip : skipWs s.data = c :: r) (hc : jsonStarter c = false) :
    jsonLoads s = none := by
  unfold jsonLoads
  rw [parseValue_skipWs_not_starter (2 * s.length + 8) s.data c r hskip hc]

/-- The fence regex on an opening ```` ```json ```` fence, whitespace, a
backtick-free array-of-objects payload, whitespace, and a closing fence
captures exactly the payload, for every pair of whitespace runs. -/
theorem fenceSearch_fenced (t : String) (mid w1 w2 : List Char)
    (hd : t.data = '[' :: '{' :: (mid ++ ['}', ']']))
    (hb : ∀ c ∈ t.data, c ≠ backtick)
    (hw1 : ∀ c ∈ w1, isPyWs c = true) (hw2 : ∀ c ∈ w2, isPyWs c = true) :
    fenceSearch (backtick :: backtick :: backtick ::
        ('j' :: 's' :: 'o' :: 'n' :: (w1 ++ (t.data ++ (w2 ++ tripleBacktick))))) =
      some t.data := by
  have hlast : ∀ c, t.data.getLast? = some c → isPyWs c = false := by
    intro c hc
    have h2 : t.data = ('[' :: '{' :: (mid ++ ['}'])) ++ [']'] := by
      rw [hd]
      simp
    rw [h2, List.getLast?_concat] at hc
    injection hc with hc
    rw [← hc]
    rfl
  have hds : ((w2 ++ tripleBacktick).dropWhile isPyWs).take 3 = tripleBacktick := by
    rw [dropWhile_append_all isPyWs w2 tripleBacktick hw2]
    decide
  have hlz : lazyClose (t.data ++ (w2 ++ tripleBacktick)) = some t.data :=
    lazyClose_append (w2 ++ tripleBacktick) hds t.data hb hlast
  rw [fenceSearch]
  rw [if_pos (by exact ⟨rfl, rfl⟩)]
  have hdrop2 : List.drop 2 (backtick :: backtick ::
      ('j' :: 's' :: 'o' :: 'n' :: (w1 ++ (t.data ++ (w2 ++ tripleBacktick))))) =
      'j' :: 's' :: 'o' :: 'n' :: (w1 ++ (t.data ++ (w2 ++ tripleBacktick))) := rfl
  rw [hdrop2]
  have hfa : fenceAfterOpen
      ('j' :: 's' :: 'o' :: 'n' :: (w1 ++ (t.data ++ (w2 ++ tripleBacktick)))) =
      some t.data := by
    unfold fenceAfterOpen
    have htake4 :
        List.take 4 ('j' :: 's' :: 'o' :: 'n' :: (w1 ++ (t.data ++ (w2 ++ tripleBacktick))))
          = ['j', 's', 'o', 'n'] := rfl
    rw [htake4, if_pos rfl]
    have hdrop4 : List.drop 4
        ('j' :: 's' :: 'o' :: 'n' :: (w1 ++ (t.data ++ (w2 ++ tripleBacktick)))) =
        w1 ++ (t.data ++ (w2 ++ tripleBacktick)) := rfl
    rw [hdrop4]
    unfold fenceTail
    have hdw : List.dropWhile isPyWs (w1 ++ (t.data ++ (w2 ++ tripleBacktick))) =
        t.data ++ (w2 ++ tripleBacktick) := by
      rw [dropWhile_append_all isPyWs w1 _ hw1]
      rw [hd]
      rw [List.cons_append, List.dropWhile_cons, if_neg (by decide)]
    rw [hdw, hlz]
  rw [hfa]

/-- C8 counterexample: `"[]"` is a well-formed JSON array and round-trips
through strategy 1, but wrapped in prose the parser fails entirely — the
strategy-3 regex demands an array **of objects** (`[{...}]`), so the claim's
"every well-formed JSON array" is too strong. -/
theorem C8_counterexample :
    parse_json_response "[]" = some (JsonValue.arr []) ∧
    parse_json_response "here you go: [] thanks" = none := ⟨rfl, rfl⟩

/-- C8 as amended: let `t` be a backtick-free array-of-objects literal
(starting `[{`, ending `}]`) with `jsonLoads t = some v`.  Then parsing `t`
alone, `t` wrapped in a ```` ```json ```` fence with **any** whitespace runs
`w1`, `w2` around the payload, and `t` surrounded by **any** prose `p1`/`p2`
such that the prose holds no backtick, `p1` holds no opening bracket and its
first non-whitespace character cannot begin a JSON document, and `p2` holds
no closing brace, all yield the same decoded value `v`. -/
theorem C8_amended (t : String) (mid : List Char) (v : JsonValue)
    (p1 p2 w1 w2 : String)
    (hd : t.data = '[' :: '{' :: (mid ++ ['}', ']']))
    (hbt : backtick ∉ t.data)
    (hjson : jsonLoads t = some v)
    (hw1 : ∀ c ∈ w1.data, isPyWs c = true)
    (hw2 : ∀ c ∈ w2.data, isPyWs c = true)
    (hp1 : ∃ c r, p1.data.dropWhile isJsonWs = c :: r ∧ jsonStarter c = false)
    (hb1 : backtick ∉ p1.data) (hlb1 : '[' ∉ p1.data)
    (hb2 : backtick ∉ p2.data) (hcb2 : '}' ∉ p2.data) :
    parse_json_response t = some v ∧
    parse_json_response ("```json" ++ w1 ++ t ++ w2 ++ "```") = some v ∧
    parse_json_response (p1 ++ t ++ p2) = some v := by
  have hmk : String.mk t.data = t := rfl
  have hbl : ∀ c ∈ t.data, c ≠ backtick := fun c hc he => hbt (he ▸ hc)
  have htne : t ≠ "" := by
    intro he
    rw [he] at hd
    cases hd
  refine ⟨?_, ?_, ?_⟩
  · rw [parse_json_response, if_neg htne]
    rw [show strategy1 t = some v from hjson]
  · have hdd : (("```json" ++ w1 ++ t ++ w2 ++ "```").data) =
        backtick :: backtick :: backtick ::
          ('j' :: 's' :: 'o' :: 'n' ::
            (((w1.data ++ t.data) ++ w2.data) ++ tripleBacktick)) := rfl
    have hdd2 : (("```json" ++ w1 ++ t ++ w2 ++ "```").data) =
        backtick :: backtick :: backtick ::
          ('j' :: 's' :: 'o' :: 'n' ::
            (w1.data ++ (t.data ++ (w2.data ++ tripleBacktick)))) := by
      rw [hdd]
      simp only [List.append_assoc]
    have htfne : ("```json" ++ w1 ++ t ++ w2 ++ "```") ≠ "" := by
      intro he
      have hnil : (("```json" ++ w1 ++ t ++ w2 ++ "```").data) = [] := by rw [he]
      rw [hdd2] at hnil
      cases hnil
    have hs1 : strategy1 ("```json" ++ w1 ++ t ++ w2 ++ "```") = none :=
      jsonLoads_none_of_head _ backtick _ hdd2 (by decide) (by decide) (by decide)
        (by decide) (by decide) (by decide) (by decide) (by decide) (by decide)
        (by decide) (by decide)
    have hs2 : strategy2 ("```json" ++ w1 ++ t ++ w2 ++ "```") = some v := by
      unfold strategy2
      rw [hdd2, fenceSearch_fenced t mid w1.data w2.data hd hbl hw1 hw2]
      show jsonLoads (String.mk t.data) = some v
      rw [hmk]
      exact hjson
    rw [parse_json_response, if_neg htfne, hs1, hs2]
  · obtain ⟨c, r1, hdrop, hcstart⟩ := hp1
    have hcmem := dropWhile_head_mem isJsonWs p1.data c r1 hdrop
    have hdp0 : ((p1 ++ t ++ p2).data) = (p1.data ++ t.data) ++ p2.data := rfl
    have hdp : ((p1 ++ t ++ p2).data) = p1.data ++ (t.data ++ p2.data) := by
      rw [hdp0, List.append_assoc]
    have hskipall : skipWs ((p1 ++ t ++ p2).data) = c :: (r1 ++ (t.data ++ p2.data)) := by
      rw [hdp]
      unfold skipWs
      rw [dropWhile_append_stops isJsonWs p1.data _ ⟨c, hcmem.1, hcmem.2⟩, hdrop,
        List.cons_append]
    have htpne : (p1 ++ t ++ p2) ≠ "" := by
      have hmem : '[' ∈ ((p1 ++ t ++ p2).data) := by
        rw [hdp]
        apply List.mem_append_right
        apply List.mem_append_left
        rw [hd]
        exact List.mem_cons_self '[' _
      intro he
      rw [he] at hmem
      exact absurd hmem (by decide)
    have hs1 : strategy1 (p1 ++ t ++ p2) = none :=
      jsonLoads_none_of_skipWs _ c _ hskipall hcstart
    have hs2 : strategy2 (p1 ++ t ++ p2) = none := by
      apply strategy2_no_backtick
      rw [hdp]
      intro hm
      rcases List.mem_append.mp hm with hm | hm
      · exact hb1 hm
      · rcases List.mem_append.mp hm with hm | hm
        · exact hbt hm
        · exact hb2 hm
    have hs3 : strategy3 (p1 ++ t ++ p2) = some v := by
      unfold strategy3
      have harr : arraySpanSearch ((p1 ++ t ++ p2).data) = some t.data := by
        rw [hdp, arraySpanSearch_append p1.data _ hlb1]
        have hshape : t.data ++ p2.data = '[' :: '{' :: (mid ++ '}' :: ']' :: p2.data) := by
          rw [hd]
          simp
        rw [hshape, arraySpanSearch_obj mid p2.data hcb2, ← hd]
      rw [harr]
      show jsonLoads (String.mk t.data) = some v
      rw [hmk]
      exact hjson
    rw [parse_json_response, if_neg htpne, hs1, hs2, hs3]

/-- Witness for C8 as amended at the payload `[{"file_name":"a.jpg"}]`,
newline whitespace runs and the prose "here you go: " / " thanks". -/
theorem C8_amended_witness :
    parse_json_response "[\x7b\"file_name\":\"a.jpg\"\x7d]" =
      some (.arr [.obj [("file_name", .str "a.jpg")]]) ∧
    parse_json_response
        ("```json" ++ "\n" ++ "[\x7b\"file_name\":\"a.jpg\"\x7d]" ++ "\n" ++ "```") =
      some (.arr [.obj [("file_name", .str "a.jpg")]]) ∧
    parse_json_response
        ("here you go: " ++ "[\x7b\"file_name\":\"a.jpg\"\x7d]" ++ " thanks") =
      some (.arr [.obj [("file_name", .str "a.jpg")]]) :=
  C8_amended "[\x7b\"file_name\":\"a.jpg\"\x7d]" "\"file_name\":\"a.jpg\"".data
    (.arr [.obj [("file_name", .str "a.jpg")]])
    "here you go: " " thanks" "\n" "\n"
    rfl (by decide) rfl (by decide) (by decide)
    ⟨'h', "ere you go: ".data, rfl, by decide⟩
    (by decide) (by decide) (by decide) (by decide)

set_option maxRecDepth 10000 in
/-- C10 counterexample: `priority` is interpolated into the finding HTML
without `html.escape` (src/app.py:1723), so a model-supplied priority of
`<script>alert(1)</script>` contributes two raw `<` characters to the rendered
row that a benign priority (`中`, same CSS classes) does not — raw model
markup does reach the HTML passed to `unsafe_allow_html`. -/
theorem C10_counterexample :
    countChar '<'
        (create_photo_row_html 1
          { file_name := some "a.jpg"
            findings := [{ location := some "loc", current_state := some "cur",
                           suggested_work := some "sug",
                           priority := some "<script>alert(1)</script>",
                           notes := none }]
            observation := none } none) =
      countChar '<'
        (create_photo_row_html 1
          { file_name := some "a.jpg"
            findings := [{ location := some "loc", current_state := some "cur",
                           suggested_work := some "sug",
                           priority := some "中",
                           notes := none }]
            observation := none } none) + 2 := by rfl
